import Mathlib

/-!
Verification of the VV10 non-local correlation core
(`compute_vv10_kernel` and `compute_vv10` from
`Tutorials/04_Density_Functional_Theory/4d_VV10.ipynb`).

The numerical core is embedded shallowly over ℝ: numpy arrays over a
block of grid points become functions `Fin np → ℝ`, the per-block data
produced by the external grid/functional evaluator (weights, coordinates,
densities, semilocal derivative arrays, basis tables, local-to-global
index maps) becomes a `Block` structure, and the outer-block loop of
`compute_vv10` becomes a fold over the list of blocks carrying the
state `(xc_e, vv10_e, Varr)` that the loop mutates.
-/

namespace VV10

noncomputable section

/-- `coef_C = 0.0093`, the fixed empirical VV10 constant C. -/
def coef_C : ℝ := 0.0093

/-- `coef_B = 5.9`, the fixed empirical VV10 constant B. -/
def coef_B : ℝ := 5.9

/-- `coef_beta = 1.0 / 32.0 * (3.0 / (coef_B ** 2.0)) ** (3.0 / 4.0)`. -/
def coef_beta : ℝ := 1.0 / 32.0 * (3.0 / coef_B ^ 2) ^ ((3 : ℝ) / 4)

/-- `kappa_pref = coef_B * (1.5 * np.pi) / ((9.0 * np.pi) ** (1.0 / 6.0))`,
the prefactor hoisted to the top of `compute_vv10_kernel`. -/
def kappa_pref : ℝ := coef_B * (1.5 * Real.pi) / ((9.0 * Real.pi) ^ ((1 : ℝ) / 6))

/-- Port of `compute_vv10_kernel(rho, gamma)`: per point,
`Wp = (4.0/3.0)*pi*rho`, `Wg = coef_C * ((gamma/(rho*rho)) ** 2.0)`,
`W0 = sqrt(Wg + Wp)`, `kappa = rho ** (1.0/6.0) * kappa_pref`;
returns the pair `(W0, kappa)`. -/
def compute_vv10_kernel (rho gamma : ℝ) : ℝ × ℝ :=
  let Wp := (4.0 / 3.0) * Real.pi * rho
  let Wg := coef_C * (gamma / (rho * rho)) ^ 2
  let W0 := Real.sqrt (Wg + Wp)
  let kappa := rho ^ ((1 : ℝ) / 6) * kappa_pref
  (W0, kappa)

/-- One quadrature grid point: coordinates `x,y,z`, quadrature weight `w`,
density `rho` (`RHO_A`) and squared density gradient `gamma` (`GAMMA_AA`). -/
structure GridPoint where
  x : ℝ
  y : ℝ
  z : ℝ
  w : ℝ
  rho : ℝ
  gamma : ℝ

/-- The `W0` array entry of a point, `compute_vv10_kernel(rho, gamma)[0]`. -/
def W0pt (p : GridPoint) : ℝ := (compute_vv10_kernel p.rho p.gamma).1

/-- The `kappa` array entry of a point, `compute_vv10_kernel(rho, gamma)[1]`. -/
def kappapt (p : GridPoint) : ℝ := (compute_vv10_kernel p.rho p.gamma).2

/-- Entry `(i,j)` of the distance matrix built in `compute_vv10`:
`R2 = (l_x[:,None]-r_x)**2 + (l_y[:,None]-r_y)**2 + (l_z[:,None]-r_z)**2`. -/
def R2 (l r : GridPoint) : ℝ :=
  (l.x - r.x) ^ 2 + (l.y - r.y) ^ 2 + (l.z - r.z) ^ 2

/-- `g = l_W0[:, None] * R2 + l_kappa[:, None]` entrywise. -/
def gL (l r : GridPoint) : ℝ := W0pt l * R2 l r + kappapt l

/-- `gp = r_W0 * R2 + r_kappa` entrywise. -/
def gR (l r : GridPoint) : ℝ := W0pt r * R2 l r + kappapt r

/-- `F_kernal = -1.5 * r_w * r_rho / (g * gp * (g + gp))` entrywise. -/
def F_kernal (l r : GridPoint) : ℝ :=
  -1.5 * r.w * r.rho / (gL l r * gR l r * (gL l r + gR l r))

/-- `F_U = F_kernal * ((1.0 / g) + (1.0 / (g + gp)))` entrywise. -/
def F_U (l r : GridPoint) : ℝ :=
  F_kernal l r * (1.0 / gL l r + 1.0 / (gL l r + gR l r))

/-- `F_W = F_U * R2` entrywise. -/
def F_W (l r : GridPoint) : ℝ := F_U l r * R2 l r

/-- One quadrature block as exposed by `Vpot.get_block` together with the
per-block data computed by `points_func` and `superfunc` in the source:
`np` grid points (`pt` packs `w,x,y,z` with `RHO_A` and `GAMMA_AA`),
the semilocal functional outputs `eps = ret["V"]`, `vrho0 = ret["V_RHO_A"]`,
`vgamma0 = ret["V_GAMMA_AA"]`, the directional density gradients
`RHO_AX/AY/AZ`, the basis tables `PHI`, `PHI_X/Y/Z` over `nf` local basis
functions, and the local-to-global map `lpos = functions_local_to_global()`
(injective by construction of the basis-function index map). -/
structure Block (nbf : ℕ) where
  np : ℕ
  pt : Fin np → GridPoint
  eps : Fin np → ℝ
  vrho0 : Fin np → ℝ
  vgamma0 : Fin np → ℝ
  rhox : Fin np → ℝ
  rhoy : Fin np → ℝ
  rhoz : Fin np → ℝ
  nf : ℕ
  lpos : Fin nf → Fin nbf
  phi : Fin np → Fin nf → ℝ
  phix : Fin np → Fin nf → ℝ
  phiy : Fin np → Fin nf → ℝ
  phiz : Fin np → Fin nf → ℝ

variable {nbf : ℕ}

/-- The `phi_kernel` accumulator of one outer point: initialized to zero,
then `phi_kernel += np.sum(F_kernal, axis=1)` once per inner block. -/
def phi_kernel_acc (l : GridPoint) (bs : List (Block nbf)) : ℝ :=
  bs.foldl (fun acc rb => acc + ∑ j, F_kernal l (rb.pt j)) 0

/-- The `phi_U` accumulator of one outer point: initialized to zero,
then `phi_U += -np.sum(F_U, axis=1)` once per inner block. -/
def phi_U_acc (l : GridPoint) (bs : List (Block nbf)) : ℝ :=
  bs.foldl (fun acc rb => acc + -(∑ j, F_U l (rb.pt j))) 0

/-- The `phi_W` accumulator of one outer point: initialized to zero,
then `phi_W += -np.sum(F_W, axis=1)` once per inner block. -/
def phi_W_acc (l : GridPoint) (bs : List (Block nbf)) : ℝ :=
  bs.foldl (fun acc rb => acc + -(∑ j, F_W l (rb.pt j))) 0

/-- `kappa_dn = l_kappa / (6.0 * l_rho)` entrywise. -/
def kappa_dn (p : GridPoint) : ℝ := kappapt p / (6.0 * p.rho)

/-- `w0_dgamma = coef_C * l_gamma / (l_W0 * l_rho ** 4.0)` entrywise. -/
def w0_dgamma (p : GridPoint) : ℝ := coef_C * p.gamma / (W0pt p * p.rho ^ 4)

/-- `w0_drho = 2.0 / l_W0 * (np.pi/3.0 - coef_C * l_gamma**2.0 / l_rho**5.0)`
entrywise. -/
def w0_drho (p : GridPoint) : ℝ :=
  2.0 / W0pt p * (Real.pi / 3.0 - coef_C * p.gamma ^ 2 / p.rho ^ 5)

/-- The `v_rho` array of an outer block after the two source updates
`v_rho += coef_beta + phi_kernel + l_rho * (kappa_dn * phi_U + w0_drho * phi_W)`
followed by `v_rho *= 0.5`, starting from `ret["V_RHO_A"]`. -/
def vRho (L : Block nbf) (bs : List (Block nbf)) (i : Fin L.np) : ℝ :=
  (L.vrho0 i + coef_beta + phi_kernel_acc (L.pt i) bs
    + (L.pt i).rho * (kappa_dn (L.pt i) * phi_U_acc (L.pt i) bs
      + w0_drho (L.pt i) * phi_W_acc (L.pt i) bs)) * 0.5

/-- The `v_gamma` array of an outer block after the source update
`v_gamma += l_rho * w0_dgamma * phi_W`, starting from `ret["V_GAMMA_AA"]`. -/
def vGamma (L : Block nbf) (bs : List (Block nbf)) (i : Fin L.np) : ℝ :=
  L.vgamma0 i + (L.pt i).rho * w0_dgamma (L.pt i) * phi_W_acc (L.pt i) bs

/-- The local block matrix `Vtmp`: the LDA einsum
`np.einsum('pb,p,p,pa->ab', phi, v_rho, l_w, phi)` plus the three GGA
einsums with `tmp_grid = 2.0 * l_w * v_gamma` against `rho_d` and `phi_d`. -/
def Vtmp (L : Block nbf) (bs : List (Block nbf)) (a b : Fin L.nf) : ℝ :=
  (∑ p, L.phi p b * vRho L bs p * (L.pt p).w * L.phi p a)
  + (∑ p, L.phi p b * (2.0 * (L.pt p).w * vGamma L bs p) * L.rhox p * L.phix p a)
  + (∑ p, L.phi p b * (2.0 * (L.pt p).w * vGamma L bs p) * L.rhoy p * L.phiy p a)
  + (∑ p, L.phi p b * (2.0 * (L.pt p).w * vGamma L bs p) * L.rhoz p * L.phiz p a)

/-- The scatter step `Varr[(lpos[:, None], lpos)] += Vtmp + Vtmp.T`:
entry `(g1, g2)` of the global matrix accumulates the entries of
`Vtmp + Vtmp.T` at the local index pairs that `lpos` maps to `(g1, g2)`
(exactly one pair when `lpos` is injective, as local-to-global maps are). -/
def scatter (V : Matrix (Fin nbf) (Fin nbf) ℝ) (L : Block nbf)
    (M : Fin L.nf → Fin L.nf → ℝ) : Matrix (Fin nbf) (Fin nbf) ℝ :=
  fun g1 g2 => V g1 g2 +
    ∑ a, ∑ b, if L.lpos a = g1 ∧ L.lpos b = g2 then M a b + M b a else 0

/-- The mutable state of the outer-block loop of `compute_vv10`:
the running semilocal energy `xc_e`, the running non-local energy
`vv10_e`, and the global potential matrix `Varr`. -/
structure VVState (nbf : ℕ) where
  xc_e : ℝ
  vv10_e : ℝ
  Varr : Matrix (Fin nbf) (Fin nbf) ℝ

/-- One iteration of the outer-block loop of `compute_vv10` for outer
block `L` (the inner loop runs over the full block list `bs`):
`xc_e += np.vdot(l_w, ret["V"])`,
`vv10_e += np.sum(l_w * l_rho * (coef_beta + 0.5 * phi_kernel))`,
and the scatter of `Vtmp + Vtmp.T` into `Varr`. -/
def processBlock (bs : List (Block nbf)) (s : VVState nbf) (L : Block nbf) :
    VVState nbf where
  xc_e := s.xc_e + ∑ i, (L.pt i).w * L.eps i
  vv10_e := s.vv10_e +
    ∑ i, (L.pt i).w * (L.pt i).rho * (coef_beta + 0.5 * phi_kernel_acc (L.pt i) bs)
  Varr := scatter s.Varr L (Vtmp L bs)

/-- The loop state before the first outer block:
`Varr = np.zeros((nbf, nbf))`, `xc_e = 0.0`, `vv10_e = 0.0`. -/
def initState (nbf : ℕ) : VVState nbf := ⟨0, 0, 0⟩

/-- Port of `compute_vv10`: fold the outer-block loop over the block
list, then `xc_e += vv10_e` and `return xc_e, Varr`. -/
def compute_vv10 (bs : List (Block nbf)) : ℝ × Matrix (Fin nbf) (Fin nbf) ℝ :=
  let s := bs.foldl (processBlock bs) (initState nbf)
  (s.xc_e + s.vv10_e, s.Varr)

/-- The position of a grid point as a vector in Euclidean 3-space,
used to state that `R2` is a squared Euclidean distance. -/
def pos (p : GridPoint) : EuclideanSpace ℝ (Fin 3) :=
  (WithLp.equiv 2 (Fin 3 → ℝ)).symm ![p.x, p.y, p.z]

/-- A concrete grid point at the origin with unit weight and unit density,
used to instantiate the single-point safety property. -/
def p0 : GridPoint := ⟨0, 0, 0, 1, 1, 0⟩

/-- A concrete one-point block (unit weight, unit density at the origin,
no basis functions), used to instantiate the permutation property. -/
def exBlock1 : Block 1 where
  np := 1
  pt := fun _ => ⟨0, 0, 0, 1, 1, 0⟩
  eps := fun _ => 0
  vrho0 := fun _ => 0
  vgamma0 := fun _ => 0
  rhox := fun _ => 0
  rhoy := fun _ => 0
  rhoz := fun _ => 0
  nf := 0
  lpos := Fin.elim0
  phi := fun _ => Fin.elim0
  phix := fun _ => Fin.elim0
  phiy := fun _ => Fin.elim0
  phiz := fun _ => Fin.elim0

/-- A second concrete one-point block, at a different position and density. -/
def exBlock2 : Block 1 where
  np := 1
  pt := fun _ => ⟨1, 0, 0, 2, 2, 1⟩
  eps := fun _ => 0
  vrho0 := fun _ => 0
  vgamma0 := fun _ => 0
  rhox := fun _ => 0
  rhoy := fun _ => 0
  rhoz := fun _ => 0
  nf := 0
  lpos := Fin.elim0
  phi := fun _ => Fin.elim0
  phix := fun _ => Fin.elim0
  phiy := fun _ => Fin.elim0
  phiz := fun _ => Fin.elim0

/-- The non-local energy `vv10_e` accumulated by the double block loop of
`compute_vv10` over the block list `bs` (both the outer and the inner loop
enumerate `bs`). -/
def nl_energy (bs : List (Block nbf)) : ℝ :=
  (bs.foldl (processBlock bs) (initState nbf)).vv10_e

/-! ### Helper lemmas -/

/-- A left fold that only adds is the starting value plus the list sum. -/
lemma foldl_add_eq {α : Type*} (f : α → ℝ) (l : List α) (a : ℝ) :
    l.foldl (fun acc x => acc + f x) a = a + (l.map f).sum := by
  induction l generalizing a with
  | nil => simp
  | cons x xs ih => simp [ih, add_assoc]

/-- Summing negated values negates the sum. -/
lemma sum_map_neg {α : Type*} (g : α → ℝ) (l : List α) :
    (l.map fun x => -g x).sum = -(l.map g).sum := by
  induction l with
  | nil => simp
  | cons x xs ih => simp [ih]; ring

/-- The entry `R2 l r` of the distance matrix is the squared Euclidean
distance between the two points. -/
lemma R2_eq_dist_sq (l r : GridPoint) : R2 l r = dist (pos l) (pos r) ^ 2 := by
  rw [EuclideanSpace.dist_eq, Real.sq_sqrt (by positivity)]
  simp [pos, Fin.sum_univ_three, Real.dist_eq, sq_abs, R2]

/-- The `xc_e` component of the outer-block fold. -/
lemma foldl_xc_eq (bs blocks : List (Block nbf)) (s : VVState nbf) :
    (blocks.foldl (processBlock bs) s).xc_e =
      s.xc_e + (blocks.map fun L => ∑ i, (L.pt i).w * L.eps i).sum := by
  induction blocks generalizing s with
  | nil => simp
  | cons L ls ih => simp [ih, processBlock, add_assoc]

/-- The `vv10_e` component of the outer-block fold. -/
lemma foldl_vv10_eq (bs blocks : List (Block nbf)) (s : VVState nbf) :
    (blocks.foldl (processBlock bs) s).vv10_e =
      s.vv10_e + (blocks.map fun L => ∑ i, (L.pt i).w * (L.pt i).rho *
        (coef_beta + 0.5 * phi_kernel_acc (L.pt i) bs)).sum := by
  induction blocks generalizing s with
  | nil => simp
  | cons L ls ih => simp [ih, processBlock, add_assoc]

/-- `phi_kernel_acc` depends on the inner block list only through its
multiset of blocks. -/
lemma phi_kernel_acc_perm (l : GridPoint) {bs bt : List (Block nbf)}
    (h : bs.Perm bt) : phi_kernel_acc l bs = phi_kernel_acc l bt := by
  unfold phi_kernel_acc
  rw [foldl_add_eq, foldl_add_eq, (h.map _).sum_eq]

/-- A scatter of `M + Mᵀ` preserves symmetry of the global matrix. -/
lemma scatter_symm (V : Matrix (Fin nbf) (Fin nbf) ℝ) (L : Block nbf)
    (M : Fin L.nf → Fin L.nf → ℝ) (hV : ∀ g1 g2, V g1 g2 = V g2 g1) :
    ∀ g1 g2, scatter V L M g1 g2 = scatter V L M g2 g1 := by
  intro g1 g2
  unfold scatter
  rw [hV g1 g2]
  congr 1
  rw [Finset.sum_comm]
  apply Finset.sum_congr rfl
  intro x _
  apply Finset.sum_congr rfl
  intro y _
  exact if_congr and_comm (add_comm _ _) rfl

/-- The `Varr` component of the outer-block fold stays symmetric. -/
lemma foldl_varr_symm (bs blocks : List (Block nbf)) (s : VVState nbf)
    (hs : ∀ g1 g2, s.Varr g1 g2 = s.Varr g2 g1) :
    ∀ g1 g2, (blocks.foldl (processBlock bs) s).Varr g1 g2 =
      (blocks.foldl (processBlock bs) s).Varr g2 g1 := by
  induction blocks generalizing s with
  | nil => simpa using hs
  | cons L ls ih =>
    simp only [List.foldl_cons]
    exact ih _ (scatter_symm _ _ _ hs)

/-- The first kernel output `W0` is positive on positive density. -/
lemma kernel_W0_pos (rho gamma : ℝ) (hrho : 0 < rho) :
    0 < (compute_vv10_kernel rho gamma).1 := by
  have hpi := Real.pi_pos
  unfold compute_vv10_kernel coef_C
  simp only
  apply Real.sqrt_pos.mpr
  positivity

/-- The second kernel output `kappa` is positive on positive density. -/
lemma kernel_kappa_pos (rho gamma : ℝ) (hrho : 0 < rho) :
    0 < (compute_vv10_kernel rho gamma).2 := by
  have hpi := Real.pi_pos
  unfold compute_vv10_kernel kappa_pref coef_B
  simp only
  positivity

/-! ### Claim theorems -/

/-- C2: for every `rho > 0` and `gamma ≥ 0`, `compute_vv10_kernel rho gamma`
returns `W0 = sqrt(C·(gamma/rho²)² + (4π/3)·rho)` with `C = 0.0093`, and
`kappa = rho^(1/6) · B·(3π/2)/(9π)^(1/6)` with `B = 5.9`. -/
theorem compute_vv10_kernel_spec (rho gamma : ℝ) (hrho : 0 < rho) (hgamma : 0 ≤ gamma) :
    compute_vv10_kernel rho gamma =
      (Real.sqrt ((0.0093 : ℝ) * (gamma / rho ^ 2) ^ 2 + (4 * Real.pi / 3) * rho),
       rho ^ ((1 : ℝ) / 6) *
         ((5.9 : ℝ) * (3 * Real.pi / 2) / ((9 * Real.pi) ^ ((1 : ℝ) / 6)))) := by
  unfold compute_vv10_kernel kappa_pref coef_C coef_B
  simp only [Prod.mk.injEq]
  constructor
  · congr 1
    ring
  · congr 1
    norm_num
    ring

/-- C2 witness: the kernel specification instantiated at `rho = 1`, `gamma = 0`. -/
theorem compute_vv10_kernel_spec_witness :
    (0 : ℝ) < 1 ∧ (0 : ℝ) ≤ 0 ∧
    compute_vv10_kernel 1 0 =
      (Real.sqrt ((0.0093 : ℝ) * ((0 : ℝ) / (1 : ℝ) ^ 2) ^ 2 + (4 * Real.pi / 3) * 1),
       (1 : ℝ) ^ ((1 : ℝ) / 6) *
         ((5.9 : ℝ) * (3 * Real.pi / 2) / ((9 * Real.pi) ^ ((1 : ℝ) / 6)))) :=
  ⟨by norm_num, le_refl 0, compute_vv10_kernel_spec 1 0 (by norm_num) (le_refl 0)⟩

/-- C6: for every point with `rho > 0` and any `gamma ≥ 0`,
`compute_vv10_kernel rho gamma` returns `W0 > 0` and `kappa > 0`. -/
theorem compute_vv10_kernel_outputs_pos (rho gamma : ℝ) (hrho : 0 < rho)
    (hgamma : 0 ≤ gamma) :
    0 < (compute_vv10_kernel rho gamma).1 ∧ 0 < (compute_vv10_kernel rho gamma).2 :=
  ⟨kernel_W0_pos rho gamma hrho, kernel_kappa_pos rho gamma hrho⟩

/-- C6 witness: positivity of both kernel outputs at `rho = 1`, `gamma = 0`. -/
theorem compute_vv10_kernel_outputs_pos_witness :
    (0 : ℝ) < 1 ∧ (0 : ℝ) ≤ 0 ∧
    (0 < (compute_vv10_kernel 1 0).1 ∧ 0 < (compute_vv10_kernel 1 0).2) :=
  ⟨by norm_num, le_refl 0, compute_vv10_kernel_outputs_pos 1 0 (by norm_num) (le_refl 0)⟩

/-- C7: for a single block with a single point of positive density, the pair
quantities are well defined: `R2` of the point with itself is `0`, hence
`g = kappa` and `gp = kappa`, and the denominators `g`, `gp`, `g + gp` and
`g·gp·(g+gp)` of `F_kernal`, `F_U`, `F_W` are all strictly positive. -/
theorem single_point_denominators_pos (p : GridPoint) (hrho : 0 < p.rho) :
    R2 p p = 0 ∧ gL p p = kappapt p ∧ gR p p = kappapt p ∧
    0 < gL p p ∧ 0 < gR p p ∧ 0 < gL p p + gR p p ∧
    0 < gL p p * gR p p * (gL p p + gR p p) := by
  have hR2 : R2 p p = 0 := by simp [R2]
  have hkappa : 0 < kappapt p := kernel_kappa_pos p.rho p.gamma hrho
  have hgL : gL p p = kappapt p := by simp [gL, hR2]
  have hgR : gR p p = kappapt p := by simp [gR, hR2]
  have h1 : 0 < gL p p := hgL ▸ hkappa
  have h2 : 0 < gR p p := hgR ▸ hkappa
  exact ⟨hR2, hgL, hgR, h1, h2, by positivity, by positivity⟩

/-- C1: for every outer point and every list of inner blocks, the pair-kernel
integrator computes `R2` as the squared Euclidean distance between the two
points, `g = W0_l·R2 + kappa_l`, `gp = W0_r·R2 + kappa_r`,
`F = -1.5·w_r·rho_r/(g·gp·(g+gp))`, `F_U = F·(1/g + 1/(g+gp))`,
`F_W = F_U·R2`, and accumulates `Σ_j F` into `phi_kernel`, `−Σ_j F_U` into
`phi_U` and `−Σ_j F_W` into `phi_W`, summed over all inner blocks. -/
theorem pair_kernel_integrator_spec (nbf : ℕ) (l : GridPoint)
    (bs : List (Block nbf)) :
    (∀ r : GridPoint, R2 l r = dist (pos l) (pos r) ^ 2) ∧
    (∀ r : GridPoint, gL l r =
      (compute_vv10_kernel l.rho l.gamma).1 * R2 l r +
        (compute_vv10_kernel l.rho l.gamma).2) ∧
    (∀ r : GridPoint, gR l r =
      (compute_vv10_kernel r.rho r.gamma).1 * R2 l r +
        (compute_vv10_kernel r.rho r.gamma).2) ∧
    (∀ r : GridPoint, F_kernal l r =
      -1.5 * r.w * r.rho / (gL l r * gR l r * (gL l r + gR l r))) ∧
    (∀ r : GridPoint, F_U l r = F_kernal l r * (1 / gL l r + 1 / (gL l r + gR l r))) ∧
    (∀ r : GridPoint, F_W l r = F_U l r * R2 l r) ∧
    phi_kernel_acc l bs = (bs.map fun rb => ∑ j, F_kernal l (rb.pt j)).sum ∧
    phi_U_acc l bs = -(bs.map fun rb => ∑ j, F_U l (rb.pt j)).sum ∧
    phi_W_acc l bs = -(bs.map fun rb => ∑ j, F_W l (rb.pt j)).sum := by
  refine ⟨R2_eq_dist_sq l, fun r => rfl, fun r => rfl, fun r => rfl,
    fun r => by norm_num [F_U], fun r => rfl, ?_, ?_, ?_⟩
  · rw [phi_kernel_acc, foldl_add_eq, zero_add]
  · rw [phi_U_acc, foldl_add_eq, zero_add, sum_map_neg]
  · rw [phi_W_acc, foldl_add_eq, zero_add, sum_map_neg]

/-- C3: the derivative assembler produces
`v_rho = 0.5·(v_rho0 + beta + phi_kernel + rho·(kappa/(6·rho)·phi_U
+ (2/W0)·(π/3 − C·gamma²/rho⁵)·phi_W))` — the halving applied exactly once,
after the additive perturbation — and
`v_gamma = v_gamma0 + rho·(C·gamma/(W0·rho⁴))·phi_W`, with no halving. -/
theorem derivative_assembler_spec (nbf : ℕ) (L : Block nbf)
    (bs : List (Block nbf)) (i : Fin L.np) :
    vRho L bs i = 0.5 * (L.vrho0 i + coef_beta + phi_kernel_acc (L.pt i) bs
      + (L.pt i).rho * (kappapt (L.pt i) / (6 * (L.pt i).rho) * phi_U_acc (L.pt i) bs
        + 2 / W0pt (L.pt i) *
            (Real.pi / 3 - coef_C * (L.pt i).gamma ^ 2 / (L.pt i).rho ^ 5) *
          phi_W_acc (L.pt i) bs)) ∧
    vGamma L bs i = L.vgamma0 i
      + (L.pt i).rho * (coef_C * (L.pt i).gamma / (W0pt (L.pt i) * (L.pt i).rho ^ 4))
        * phi_W_acc (L.pt i) bs := by
  constructor
  · rw [vRho, kappa_dn, w0_drho]
    norm_num
    ring
  · rw [vGamma, w0_dgamma]

/-- C4: the scalar energy returned by `compute_vv10` is the externally
supplied semilocal energy (the weight-dotted functional energy density
summed over all blocks) plus the per-block non-local contributions
`Σ w·rho·(beta + 0.5·phi_kernel)` with `beta = (1/32)·(3/B²)^(3/4)`,
summed over all outer blocks. -/
theorem compute_vv10_energy_spec (nbf : ℕ) (bs : List (Block nbf)) :
    (compute_vv10 bs).1 =
      (bs.map fun L => ∑ i, (L.pt i).w * L.eps i).sum
      + (bs.map fun L => ∑ i, (L.pt i).w * (L.pt i).rho *
          ((1 / 32 : ℝ) * (3 / (5.9 : ℝ) ^ 2) ^ ((3 : ℝ) / 4)
            + 0.5 * phi_kernel_acc (L.pt i) bs)).sum := by
  have hbeta : coef_beta = (1 / 32 : ℝ) * (3 / (5.9 : ℝ) ^ 2) ^ ((3 : ℝ) / 4) := by
    rw [coef_beta, coef_B]
    norm_num
  rw [compute_vv10]
  simp only [foldl_xc_eq, foldl_vv10_eq, initState, hbeta]
  ring

/-- C5: after every outer block — and in particular for the matrix finally
returned by `compute_vv10` — the accumulated global potential matrix is
symmetric, because each block scatters `Vtmp + Vtmpᵀ` by accumulation. -/
theorem potential_matrix_symmetric (nbf : ℕ) (bs : List (Block nbf)) :
    (∀ n : ℕ, ∀ g1 g2,
      ((bs.take n).foldl (processBlock bs) (initState nbf)).Varr g1 g2 =
      ((bs.take n).foldl (processBlock bs) (initState nbf)).Varr g2 g1) ∧
    Matrix.transpose (compute_vv10 bs).2 = (compute_vv10 bs).2 := by
  have hinit : ∀ g1 g2, (initState nbf).Varr g1 g2 = (initState nbf).Varr g2 g1 :=
    fun _ _ => rfl
  constructor
  · intro n
    exact foldl_varr_symm bs _ _ hinit
  · ext g1 g2
    rw [compute_vv10]
    exact foldl_varr_symm bs bs _ hinit g2 g1

/-- C8: for a fixed set of blocks with all-positive densities, the total
non-local energy of the double loop is invariant under any permutation of
the block enumeration order used for both the outer and the inner loop. -/
theorem nl_energy_perm_invariant (nbf : ℕ) (bs bt : List (Block nbf))
    (hperm : bs.Perm bt) (hpos : ∀ L ∈ bs, ∀ i, 0 < (L.pt i).rho) :
    nl_energy bs = nl_energy bt := by
  rw [nl_energy, nl_energy, foldl_vv10_eq, foldl_vv10_eq]
  have hpt : ∀ L : Block nbf,
      (fun L : Block nbf => ∑ i, (L.pt i).w * (L.pt i).rho *
        (coef_beta + 0.5 * phi_kernel_acc (L.pt i) bt)) L =
      (fun L : Block nbf => ∑ i, (L.pt i).w * (L.pt i).rho *
        (coef_beta + 0.5 * phi_kernel_acc (L.pt i) bs)) L := by
    intro L
    simp only [phi_kernel_acc_perm _ hperm]
  rw [funext hpt, (hperm.map _).sum_eq]

/-- C8 witness: permutation invariance instantiated on the two concrete
one-point blocks, swapped. -/
theorem nl_energy_perm_invariant_witness :
    ([exBlock1, exBlock2]).Perm [exBlock2, exBlock1] ∧
    (∀ L ∈ [exBlock1, exBlock2], ∀ i, 0 < (L.pt i).rho) ∧
    nl_energy [exBlock1, exBlock2] = nl_energy [exBlock2, exBlock1] := by
  have hperm : ([exBlock1, exBlock2]).Perm [exBlock2, exBlock1] :=
    List.Perm.swap exBlock2 exBlock1 []
  have hpos : ∀ L ∈ [exBlock1, exBlock2], ∀ i, 0 < (L.pt i).rho := by
    intro L hL i
    rcases List.mem_cons.mp hL with h | h
    · subst h
      exact zero_lt_one
    · have h2 : L = exBlock2 := List.mem_singleton.mp h
      subst h2
      exact zero_lt_two
  exact ⟨hperm, hpos, nl_energy_perm_invariant 1 _ _ hperm hpos⟩

/-- C7 witness: the single-point safety conclusion at the origin point with
unit weight and unit density. -/
theorem single_point_denominators_pos_witness :
    0 < p0.rho ∧
    (R2 p0 p0 = 0 ∧ gL p0 p0 = kappapt p0 ∧ gR p0 p0 = kappapt p0 ∧
     0 < gL p0 p0 ∧ 0 < gR p0 p0 ∧ 0 < gL p0 p0 + gR p0 p0 ∧
     0 < gL p0 p0 * gR p0 p0 * (gL p0 p0 + gR p0 p0)) :=
  ⟨by norm_num [p0], single_point_denominators_pos p0 (by norm_num [p0])⟩

end

end VV10
